import Mathlib

/-!
Verification of the LeRobot real-time-chunking (RTC) async-inference core.

Shallow embedding of:
  * `RTCProcessor.get_prefix_weights` / `_linweights` / `_add_trailing_zeros` /
    `_add_leading_ones` (src/lerobot/policies/rtc/modeling_rtc.py),
  * the scalar guidance-weight computation of `RTCProcessor.denoise_step`
    (same file, the torch.nan_to_num / torch.minimum sequence), over an
    explicit IEEE-like value model with NaN and signed infinities,
  * `RTCProcessor.denoise_step` itself, with the autograd call modelled by a
    small reverse-mode expression language,
  * `RobotClient._aggregate_action_queues` (async_inference/robot_client.py),
  * `PolicyServer._enqueue_observation`, `_obs_sanity_checks`, `GetActions`
    and `_time_action_chunk` (async_inference/policy_server.py).

Machine floats are modelled by exact rationals except where the code's
behaviour hinges on non-finite values (division by zero, 0 * inf), which the
`FVal` type models explicitly with IEEE semantics for the operations used.
-/

/-- The four values of `RTCAttentionSchedule` (lerobot.configs.types). -/
inductive RTCAttentionSchedule where
  | zeros : RTCAttentionSchedule
  | ones : RTCAttentionSchedule
  | linear : RTCAttentionSchedule
  | exp : RTCAttentionSchedule
deriving DecidableEq

/-- `torch.linspace a b steps`: `steps` evenly spaced points from `a` to `b`.
For `steps = 1` the rational division by `steps - 1 = 0` yields `0`, so the
single point is `a`, matching torch. -/
def linspace (a b : ℚ) (steps : ℕ) : List ℚ :=
  (List.range steps).map (fun i => a + (b - a) * i / (steps - 1 : ℕ))

/-- `RTCProcessor._linweights`.  `skip_steps_at_end = max(total - end, 0)` and
the `linspace_steps <= 0` guard are captured by truncated ℕ subtraction. -/
def linweights (start stop total : ℕ) : List ℚ :=
  let skip_steps_at_end := total - stop
  let linspace_steps := total - skip_steps_at_end - start
  if stop ≤ start ∨ linspace_steps = 0 then []
  else ((linspace 1 0 (linspace_steps + 2)).drop 1).dropLast

/-- `RTCProcessor._add_trailing_zeros`. -/
def add_trailing_zeros (weights : List ℚ) (total stop : ℕ) : List ℚ :=
  let zeros_len := total - stop
  if zeros_len = 0 then weights
  else weights ++ List.replicate zeros_len 0

/-- `RTCProcessor._add_leading_ones`. -/
def add_leading_ones (weights : List ℚ) (start total : ℕ) : List ℚ :=
  let ones_len := min start total
  if ones_len = 0 then weights
  else List.replicate ones_len 1 ++ weights

/-- `RTCProcessor.get_prefix_weights`.  The EXP branch multiplies each ramp
value `r` by `expm1(r) / (e - 1)`, a transcendental float quantity; that
factor is abstracted as the parameter `em1` (so `em1 r` stands for the
float value of `expm1(r) / (e - 1)`).  No claim concerns the EXP branch. -/
def get_prefix_weights (em1 : ℚ → ℚ) (sched : RTCAttentionSchedule)
    (start stop total : ℕ) : List ℚ :=
  let s := min start stop
  match sched with
  | .zeros => (List.range total).map (fun i => if i < s then 1 else 0)
  | .ones => (List.range total).map (fun i => if i < stop then 1 else 0)
  | .linear => add_leading_ones (add_trailing_zeros (linweights s stop total) total stop) s total
  | .exp =>
      let lw := (linweights s stop total).map (fun r => r * em1 r)
      add_leading_ones (add_trailing_zeros lw total stop) s total

/-- The LINEAR weight vector exactly as the specification words it:
ones on `[0, start)`, then `linspace(1, 0, stop - start + 2)` with the first
and last elements dropped, then zeros on `[stop, total)`. -/
def linearWeightsSpec (start stop total : ℕ) : List ℚ :=
  List.replicate start 1
    ++ ((linspace 1 0 (stop - start + 2)).drop 1).dropLast
    ++ List.replicate (total - stop) 0

/-- IEEE-like value: NaN, +∞, -∞ or a finite value (modelled exactly as ℚ). -/
inductive FVal where
  | nan : FVal
  | inf : FVal
  | ninf : FVal
  | fin : ℚ → FVal
deriving DecidableEq

/-- IEEE division on `FVal` (torch tensor `/`). -/
def FVal.div : FVal → FVal → FVal
  | nan, _ => nan
  | _, nan => nan
  | fin a, fin b =>
      if b = 0 then (if a = 0 then nan else if 0 < a then inf else ninf)
      else fin (a / b)
  | fin _, inf => fin 0
  | fin _, ninf => fin 0
  | inf, fin b => if 0 ≤ b then inf else ninf
  | ninf, fin b => if 0 ≤ b then ninf else inf
  | inf, inf => nan
  | inf, ninf => nan
  | ninf, inf => nan
  | ninf, ninf => nan

/-- IEEE multiplication on `FVal` (torch tensor `*`). -/
def FVal.mul : FVal → FVal → FVal
  | nan, _ => nan
  | _, nan => nan
  | fin a, fin b => fin (a * b)
  | fin a, inf => if a = 0 then nan else if 0 < a then inf else ninf
  | fin a, ninf => if a = 0 then nan else if 0 < a then ninf else inf
  | inf, fin b => if b = 0 then nan else if 0 < b then inf else ninf
  | ninf, fin b => if b = 0 then nan else if 0 < b then ninf else inf
  | inf, inf => inf
  | inf, ninf => ninf
  | ninf, inf => ninf
  | ninf, ninf => inf

/-- Largest finite float32 value, `2^128 - 2^104` (torch default dtype). -/
def float32_max : ℚ := 2 ^ 128 - 2 ^ 104

/-- `torch.nan_to_num(x, posinf = p)`: NaN becomes `0` (the torch default,
since only `posinf` is passed at the call sites), +∞ becomes `p`, and -∞
becomes the lowest finite float32 (the torch default). -/
def FVal.nanToNum (p : ℚ) : FVal → FVal
  | nan => fin 0
  | inf => fin p
  | ninf => fin (-float32_max)
  | fin a => fin a

/-- `torch.minimum` on `FVal` (NaN-propagating). -/
def FVal.minimum : FVal → FVal → FVal
  | nan, _ => nan
  | _, nan => nan
  | fin a, fin b => fin (min a b)
  | fin a, inf => fin a
  | inf, fin b => fin b
  | ninf, _ => ninf
  | _, ninf => ninf
  | inf, inf => inf

/-- The scalar guidance-weight computation of `RTCProcessor.denoise_step`
(steps 8 of the source), with `tau = 1 - time` already substituted:
`inv_r2 = ((1-τ)² + τ²) / (1-τ)²`, `c = nan_to_num((1-τ)/τ, posinf = m)`,
`g = nan_to_num(c * inv_r2, posinf = m)`, result `minimum g m`. -/
def guidanceWeight (max_guidance_weight tau : ℚ) : FVal :=
  let squared_one_minus_tau : ℚ := (1 - tau) ^ 2
  let inv_r2 := FVal.div (.fin (squared_one_minus_tau + tau ^ 2)) (.fin squared_one_minus_tau)
  let c := (FVal.div (.fin (1 - tau)) (.fin tau)).nanToNum max_guidance_weight
  let g := (FVal.mul c inv_r2).nanToNum max_guidance_weight
  FVal.minimum g (.fin max_guidance_weight)

/-- The guidance weight as a rational; the final `minimum` of two finite
values is always finite, so the non-`fin` branches are unreachable. -/
def guidanceWeightQ (max_guidance_weight tau : ℚ) : ℚ :=
  match guidanceWeight max_guidance_weight tau with
  | .fin q => q
  | _ => 0

/-- Action-chunk tensors `(T, A)`, as functions from (time index, action
index) to an exact-rational value; elementwise torch ops become the pointwise
Pi-type operations. -/
abbrev Tensor : Type := ℕ → ℕ → ℚ

/-- Expression language for the autograd graph that `denoise_step` builds:
`leaf` is the differentiable leaf `x_t` (marked `requires_grad_(True)` only
after the base denoiser ran), `const` a tensor outside the graph (such as
`v_t`, evaluated before grad tracking was enabled), with subtraction and
scalar multiplication as the only ops used by the code. -/
inductive TExpr where
  | leaf : TExpr
  | const : Tensor → TExpr
  | sub : TExpr → TExpr → TExpr
  | smul : ℚ → TExpr → TExpr

/-- Forward evaluation of an autograd expression at leaf value `x`. -/
def TExpr.eval : TExpr → Tensor → Tensor
  | .leaf, x => x
  | .const c, _ => c
  | .sub a b, x => a.eval x - b.eval x
  | .smul r a, x => r • a.eval x

/-- Reverse-mode gradient with respect to the leaf, given the upstream
cotangent `e` (the `grad_outputs` of `torch.autograd.grad`). -/
def TExpr.vjp : TExpr → Tensor → Tensor
  | .leaf, e => e
  | .const _, _ => 0
  | .sub a b, e => a.vjp e - b.vjp e
  | .smul r a, e => a.vjp (r • e)

/-- The fields of `RTCConfig` that `denoise_step` reads. -/
structure RTCCfg where
  execution_horizon : ℕ
  max_guidance_weight : ℚ
  prefix_attention_schedule : RTCAttentionSchedule

/-- `RTCProcessor.denoise_step`.  `x` has shape `(T, A)` (the temporary
batch dimension the code adds and removes for 2D inputs is value-neutral and
omitted); `prev` carries the leftover chunk together with its shape
`(Tp, Ap)`; `f` is `original_denoise_step_partial`; `eh` the optional
`execution_horizon` argument.  The autograd computation of `correction`
(lines building `x1_t = x_t - time * v_t` and calling
`torch.autograd.grad(x1_t, x_t, grad_outputs = err)`) is modelled by
`TExpr.vjp` on the graph the code constructs, in which `v_t` is a constant
because `x_t.requires_grad_(True)` runs only after `f` was evaluated. -/
def denoise_step (cfg : RTCCfg) (em1 : ℚ → ℚ) (T A : ℕ) (x : Tensor)
    (prev : Option (Tensor × ℕ × ℕ)) (inference_delay : ℕ) (time : ℚ)
    (f : Tensor → Tensor) (eh : Option ℕ) : Tensor :=
  match prev with
  | none => f x
  | some (p, Tp, Ap) =>
      let eh0 := eh.getD cfg.execution_horizon
      let ehC := if Tp < eh0 then Tp else eh0
      let padded : Tensor :=
        if Tp < T ∨ Ap < A then (fun t a => if t < Tp ∧ a < Ap then p t a else 0) else p
      let w := get_prefix_weights em1 cfg.prefix_attention_schedule inference_delay ehC T
      let v := f x
      let x1Graph : TExpr := .sub .leaf (.smul time (.const v))
      let x1 := x1Graph.eval x
      let err : Tensor := fun t a => (padded t a - x1 t a) * w.getD t 0
      let correction := x1Graph.vjp err
      let g := guidanceWeightQ cfg.max_guidance_weight (1 - time)
      v - g • correction

/-- `TimedAction` (async_inference.helpers): a timestamped action; the
action payload type is abstract. -/
structure TimedAction (α : Type) where
  timestamp : ℚ
  timestep : ℤ
  action : α
deriving DecidableEq

/-- Lookup in the dict `{action.get_timestep(): action.get_action()}` built
from the queue snapshot; a Python dict comprehension keeps the last binding
for a repeated key. -/
def lookupLast {α : Type} (queue : List (TimedAction α)) (ts : ℤ) : Option α :=
  (queue.reverse.find? (fun a => decide (a.timestep = ts))).map TimedAction.action

/-- The loop body of `RobotClient._aggregate_action_queues`: iterate over the
incoming actions, skipping stale ones, appending fresh timesteps, and
aggregating duplicates against the snapshot of the old queue. -/
def aggregate_loop {α : Type} (latest_action : ℤ) (queue : List (TimedAction α))
    (fn : α → α → α) : List (TimedAction α) → List (TimedAction α) → List (TimedAction α)
  | fut, [] => fut
  | fut, na :: rest =>
      if na.timestep ≤ latest_action then aggregate_loop latest_action queue fn fut rest
      else
        match lookupLast queue na.timestep with
        | none => aggregate_loop latest_action queue fn (fut ++ [na]) rest
        | some old =>
            aggregate_loop latest_action queue fn
              (fut ++ [⟨na.timestamp, na.timestep, fn old na.action⟩]) rest

/-- `RobotClient._aggregate_action_queues`: the future queue starts empty,
the default aggregation function keeps the newer action. -/
def aggregate_action_queues {α : Type} (latest_action : ℤ)
    (queue incoming : List (TimedAction α))
    (aggregate_fn : Option (α → α → α)) : List (TimedAction α) :=
  aggregate_loop latest_action queue (aggregate_fn.getD (fun _ x2 => x2)) [] incoming

/-- Per-item merge decision, as the specification words it: drop stale items,
append fresh timesteps, aggregate colliding ones. -/
def mergeItem {α : Type} (latest_action : ℤ) (queue : List (TimedAction α))
    (fn : α → α → α) (na : TimedAction α) : Option (TimedAction α) :=
  if na.timestep ≤ latest_action then none
  else
    match lookupLast queue na.timestep with
    | none => some na
    | some old => some ⟨na.timestamp, na.timestep, fn old na.action⟩

/-- `TimedObservation` as the policy server consumes it: its timestep, its
`must_go` flag, and an abstract payload `data` that only the similarity
predicate inspects (timestamps and raw features do not affect control flow).
-/
structure SObs where
  timestep : ℤ
  mustGo : Bool
  data : ℕ
deriving DecidableEq

/-- The `PolicyServer` state touched by the modelled paths: the capacity-1
observation queue, the set of already-predicted timesteps, and
`last_processed_obs`. -/
structure ServerState where
  obsQueue : Option SObs
  predicted : List ℤ
  lastProcessed : Option SObs
deriving DecidableEq

/-- `PolicyServer._obs_sanity_checks`: reject already-predicted timesteps and
observations similar to the last processed one.  `observations_similar` is
the abstract parameter `similar`. -/
def obs_sanity_checks (similar : SObs → SObs → Bool) (predicted : List ℤ)
    (o prev : SObs) : Bool :=
  if o.timestep ∈ predicted then false
  else if similar o prev then false
  else true

/-- `PolicyServer._enqueue_observation`: accept iff `must_go`, or no
observation was ever processed, or the sanity checks pass; an accepted
observation replaces the (capacity-1) queue content, a rejected one leaves
the state unchanged. -/
def enqueue_observation (similar : SObs → SObs → Bool) (s : ServerState)
    (o : SObs) : ServerState × Bool :=
  if o.mustGo || s.lastProcessed.isNone ||
      (match s.lastProcessed with
       | none => false
       | some prev => obs_sanity_checks similar s.predicted o prev) then
    ({ s with obsQueue := some o }, true)
  else (s, false)

/-- `PolicyServer.GetActions`: pop the observation queue (or reply empty),
mark its timestep predicted, and run inference on it — which also sets
`last_processed_obs` inside `_predict_action_chunk`.  The returned timestep
records which observation inference ran for. -/
def getActions (s : ServerState) : ServerState × Option ℤ :=
  match s.obsQueue with
  | none => (s, none)
  | some o =>
      (⟨none, o.timestep :: s.predicted, some o⟩, some o.timestep)

/-- A client-visible server event: an inbound observation or a GetActions
poll. -/
inductive SEvent where
  | send : SObs → SEvent
  | poll : SEvent
deriving DecidableEq

/-- Run a session: fold the events over the server state and collect the
timesteps that inference ran for (the arguments of
`_predict_action_chunk`). -/
def runSession (similar : SObs → SObs → Bool) : ServerState → List SEvent → List ℤ
  | _, [] => []
  | s, SEvent.send o :: rest => runSession similar (enqueue_observation similar s o).1 rest
  | s, SEvent.poll :: rest =>
      let r := getActions s
      r.2.toList ++ runSession similar r.1 rest

/-- Fresh server state (a new session on a freshly started server). -/
def initServerState : ServerState := ⟨none, [], none⟩

/-- The acceptance condition exactly as the claim words it, tracking the
last ACCEPTED observation (rather than the last processed one) and whether
any observation was ever accepted. -/
def acceptSpec (similar : SObs → SObs → Bool) (predicted : List ℤ)
    (lastAccepted : Option SObs) (o : SObs) : Bool :=
  o.mustGo || lastAccepted.isNone ||
    (decide (o.timestep ∉ predicted) &&
      (match lastAccepted with
       | none => true
       | some la => !(similar o la)))

/-- `PolicyServer._time_action_chunk`: stamp the i-th action of the chunk
with timestamp `t_0 + i * environment_dt` and timestep `i_0 + i`. -/
def time_action_chunk {α : Type} (environment_dt : ℚ) (t_0 : ℚ)
    (action_chunk : List α) (i_0 : ℤ) : List (TimedAction α) :=
  action_chunk.enum.map (fun ia => ⟨t_0 + ia.1 * environment_dt, i_0 + ia.1, ia.2⟩)

/-- Modelled from the spec: the policy-server configuration's
`environment_dt` (configs.py is not part of the sources) equals `1 / fps`,
per the specification's action-channel stamping rule
`timestamp = obs_timestamp + i · (1/fps)`. -/
def environment_dt (fps : ℚ) : ℚ := 1 / fps

/-- Every observation sent in the event list has `must_go = false`. -/
def noMustGo (evs : List SEvent) : Bool :=
  evs.all (fun e => match e with | .send o => !o.mustGo | .poll => true)

/-- Reachable-state invariant for the dedup argument: any queued observation
has an unpredicted timestep, and before the first inference nothing is
predicted. -/
def ServerStateOK (s : ServerState) : Prop :=
  (∀ o, s.obsQueue = some o → o.timestep ∉ s.predicted) ∧
  (s.lastProcessed = none → s.predicted = [])

theorem add_trailing_zeros_eq (w : List ℚ) (total stop : ℕ) :
    add_trailing_zeros w total stop = w ++ List.replicate (total - stop) 0 := by
  unfold add_trailing_zeros
  by_cases h : total - stop = 0 <;> simp [h]

theorem add_leading_ones_eq (w : List ℚ) (start total : ℕ) :
    add_leading_ones w start total = List.replicate (min start total) 1 ++ w := by
  unfold add_leading_ones
  by_cases h : min start total = 0 <;> simp [h]

theorem linweights_eq (start stop total : ℕ) (h1 : stop ≤ total) (h2 : start ≤ stop) :
    linweights start stop total = ((linspace 1 0 (stop - start + 2)).drop 1).dropLast := by
  simp only [linweights]
  have hsteps : total - (total - stop) - start = stop - start := by omega
  rw [hsteps]
  by_cases h : stop ≤ start
  · have hss : stop - start = 0 := by omega
    rw [hss]
    have : linspace 1 0 (0 + 2) = [1, 0] := by
      simp [linspace, List.range_succ]
    simp [h, this]
  · have hss : ¬ (stop - start = 0) := by omega
    simp [h, hss]

theorem sum_indicator (s n : ℕ) :
    (((List.range n).map (fun i => if i < s then (1 : ℚ) else 0)).sum) = ((min s n : ℕ) : ℚ) := by
  induction n with
  | zero => simp
  | succ n ih =>
      rw [List.range_succ]
      by_cases h : n < s
      · have h1 : min s n = n := by omega
        have h2 : min s (n + 1) = n + 1 := by omega
        simp [h, ih, h1, h2]
      · have h1 : min s n = s := by omega
        have h2 : min s (n + 1) = s := by omega
        simp [h, ih, h1, h2]

theorem guidanceWeight_spec (m tau : ℚ) (hm : 0 ≤ m) :
    guidanceWeight m tau =
      .fin (if tau = 1 then 0
            else if tau = 0 then m
            else min ((((1 - tau) ^ 2 + tau ^ 2) / (1 - tau) ^ 2) * ((1 - tau) / tau)) m) := by
  by_cases h1 : tau = 1
  · subst h1
    simp [guidanceWeight, FVal.div, FVal.mul, FVal.nanToNum, FVal.minimum]
    exact hm
  · by_cases h0 : tau = 0
    · subst h0
      simp [guidanceWeight, FVal.div, FVal.mul, FVal.nanToNum, FVal.minimum]
    · have hsub : 1 - tau ≠ 0 := by
        intro h
        exact h1 (by linarith [sub_eq_zero.mp h])
      have hsq : (1 - tau) ^ 2 ≠ 0 := pow_ne_zero 2 hsub
      simp [guidanceWeight, FVal.div, FVal.mul, FVal.nanToNum, FVal.minimum, h0, h1, hsq]
      rw [mul_comm]

theorem vjp_identity_graph (v e : Tensor) (time : ℚ) :
    (TExpr.sub .leaf (.smul time (.const v))).vjp e = e := by
  simp [TExpr.vjp]

theorem aggregate_loop_eq {α : Type} (latest : ℤ) (queue : List (TimedAction α))
    (fn : α → α → α) (incoming fut : List (TimedAction α)) :
    aggregate_loop latest queue fn fut incoming =
      fut ++ incoming.filterMap (mergeItem latest queue fn) := by
  induction incoming generalizing fut with
  | nil => simp [aggregate_loop]
  | cons na rest ih =>
      by_cases h : na.timestep ≤ latest
      · simp [aggregate_loop, mergeItem, h, ih]
      · cases hq : lookupLast queue na.timestep with
        | none => simp [aggregate_loop, mergeItem, h, hq, ih]
        | some old => simp [aggregate_loop, mergeItem, h, hq, ih]

theorem sanity_true_iff (similar : SObs → SObs → Bool) (predicted : List ℤ) (o prev : SObs) :
    obs_sanity_checks similar predicted o prev = true ↔
      o.timestep ∉ predicted ∧ similar o prev = false := by
  unfold obs_sanity_checks
  by_cases hmem : o.timestep ∈ predicted
  · simp [hmem]
  · by_cases hsim : similar o prev = true <;> simp [hmem, hsim]

theorem enqueue_cases (similar : SObs → SObs → Bool) (s : ServerState) (o : SObs)
    (hmg : o.mustGo = false) (hs : ServerStateOK s) :
    enqueue_observation similar s o = (s, false) ∨
    (enqueue_observation similar s o = ({ s with obsQueue := some o }, true) ∧
      o.timestep ∉ s.predicted) := by
  unfold enqueue_observation
  cases hl : s.lastProcessed with
  | none =>
      right
      have hpred : s.predicted = [] := hs.2 hl
      rw [hmg]
      exact ⟨by simp, by simp [hpred]⟩
  | some prev =>
      rw [hmg]
      cases hok : obs_sanity_checks similar s.predicted o prev with
      | false => left; simp [hok]
      | true =>
          right
          exact ⟨by simp [hok], ((sanity_true_iff similar s.predicted o prev).mp hok).1⟩

theorem runSession_nodup_aux (similar : SObs → SObs → Bool) (evs : List SEvent) :
    ∀ s : ServerState, noMustGo evs = true → ServerStateOK s →
      (runSession similar s evs).Nodup ∧
      ∀ t ∈ runSession similar s evs, t ∉ s.predicted := by
  induction evs with
  | nil => intro s _ _; simp [runSession]
  | cons e rest ih =>
      intro s hev hs
      cases e with
      | send o =>
          have hmg : o.mustGo = false := by
            simp [noMustGo] at hev
            simpa using hev.1
          have hrest : noMustGo rest = true := by
            simp [noMustGo] at hev ⊢
            exact hev.2
          rcases enqueue_cases similar s o hmg hs with hcase | ⟨hcase, hts⟩
          · simp only [runSession, hcase]
            exact ih s hrest hs
          · simp only [runSession, hcase]
            have hok' : ServerStateOK { s with obsQueue := some o } := by
              constructor
              · intro o' ho'
                simp only [Option.some.injEq] at ho'
                subst ho'
                exact hts
              · intro hnone
                exact hs.2 hnone
            have := ih { s with obsQueue := some o } hrest hok'
            exact this
      | poll =>
          have hrest : noMustGo rest = true := by
            simpa [noMustGo] using hev
          cases hq : s.obsQueue with
          | none =>
              have := ih s hrest hs
              simp only [runSession, getActions, hq]
              simpa using this
          | some o =>
              have hok' : ServerStateOK ⟨none, o.timestep :: s.predicted, some o⟩ := by
                constructor
                · intro o' ho'
                  simp at ho'
                · intro hcontra
                  simp at hcontra
              have hihr := ih ⟨none, o.timestep :: s.predicted, some o⟩ hrest hok'
              have hnotin : o.timestep ∉ s.predicted := hs.1 o hq
              simp only [runSession, getActions, hq, Option.toList_some, List.singleton_append]
              constructor
              · refine List.nodup_cons.mpr ⟨?_, hihr.1⟩
                intro hmem
                exact (hihr.2 o.timestep hmem) (by simp)
              · intro t ht
                rcases List.mem_cons.mp ht with h | h
                · subst h; exact hnotin
                · intro hmem
                  exact (hihr.2 t h) (by simp [hmem])

/-- Claim C1, counterexample: with executed timestep 0, a queue holding an
entry at timestep 5 and an incoming list containing only timestep 6, the
merged queue is exactly the processed incoming item — the old timestep-5
entry, whose timestep does not appear in the incoming list, does NOT remain
in the queue, contradicting the claim's final sentence. -/
theorem c1_merge_counterexample :
    aggregate_action_queues 0 [⟨0, 5, 0⟩] [⟨1, 6, 1⟩] (none : Option (ℚ → ℚ → ℚ)) =
      [⟨1, 6, 1⟩] ∧
    (5 : ℤ) ∉ (aggregate_action_queues 0 [⟨0, 5, 0⟩] [⟨1, 6, 1⟩]
      (none : Option (ℚ → ℚ → ℚ))).map TimedAction.timestep := by
  have h : aggregate_action_queues 0 [⟨0, 5, 0⟩] [⟨1, 6, 1⟩] (none : Option (ℚ → ℚ → ℚ)) =
      [⟨1, 6, 1⟩] := by
    simp [aggregate_action_queues, aggregate_loop, lookupLast, List.find?]
  refine ⟨h, ?_⟩
  rw [h]
  simp

/-- Claim C1, amended: `_aggregate_action_queues` maps each incoming action
through the per-item rule (drop when its timestep is at most the latest
executed one; append when its timestep is absent from the queue snapshot;
otherwise aggregate with the snapshot entry, by default keeping the newer
action) and the merged queue consists exactly of those processed incoming
items, in order; entries of the old queue whose timesteps do not appear in
the incoming list are discarded. -/
theorem c1_merge_processes_only_incoming {α : Type} (latest : ℤ)
    (queue incoming : List (TimedAction α)) (aggregate_fn : Option (α → α → α)) :
    aggregate_action_queues latest queue incoming aggregate_fn =
      incoming.filterMap (mergeItem latest queue (aggregate_fn.getD (fun _ x2 => x2))) := by
  simpa using aggregate_loop_eq latest queue (aggregate_fn.getD (fun _ x2 => x2)) incoming []

/-- Claim C2, counterexample: at `tau = 1` (`time = 0`), where `c * inv_r2`
is `0 * inf = NaN`, the computed guidance weight with
`max_guidance_weight = 5` is `0`, not `5`: `torch.nan_to_num` is called with
only `posinf` set, so NaN maps to its default `0.0`, refuting the claim that
NaN results are replaced by `max_guidance_weight`. -/
theorem c2_guidance_nan_counterexample :
    guidanceWeight 5 1 = .fin 0 ∧ FVal.fin (0 : ℚ) ≠ .fin 5 := by
  constructor
  · simp [guidanceWeight, FVal.div, FVal.mul, FVal.nanToNum, FVal.minimum]
  · intro h
    simp only [FVal.fin.injEq] at h
    norm_num at h

/-- Claim C2, amended: with `tau = 1 - time`, the guidance weight equals
`((1-tau)^2 + tau^2) / (1-tau)^2 * ((1-tau)/tau)` clamped to at most
`max_guidance_weight`, where a `+inf` intermediate is replaced by
`max_guidance_weight` (hence the value `max_guidance_weight` at `tau = 0`)
but the NaN product arising at `tau = 1` is replaced by `0` (the
`torch.nan_to_num` default), so at `tau = 1` the result is `0`. -/
theorem c2_guidance_weight_formula (m tau : ℚ) (hm : 0 ≤ m) (h0 : 0 ≤ tau) (h1 : tau ≤ 1) :
    guidanceWeight m tau =
      .fin (if tau = 1 then 0
            else if tau = 0 then m
            else min ((((1 - tau) ^ 2 + tau ^ 2) / (1 - tau) ^ 2) * ((1 - tau) / tau)) m) :=
  guidanceWeight_spec m tau hm

/-- Witness for C2 at `m = 5`, `tau = 1/2`: the computed weight is `2`. -/
theorem c2_guidance_weight_formula_witness :
    ((0 : ℚ) ≤ 5 ∧ (0 : ℚ) ≤ 1/2 ∧ (1/2 : ℚ) ≤ 1) ∧ guidanceWeight 5 (1/2) = .fin 2 := by
  refine ⟨⟨by norm_num, by norm_num, by norm_num⟩, ?_⟩
  have h := c2_guidance_weight_formula 5 (1/2) (by norm_num) (by norm_num) (by norm_num)
  norm_num at h
  exact h

/-- Claim C3: for every `tau` in `[0, 1]` (endpoints included) and
`max_guidance_weight ≥ 0`, the scalar guidance weight computed in
`denoise_step` is a finite value `q` with `0 ≤ q ≤ max_guidance_weight`. -/
theorem c3_guidance_weight_bounds (m tau : ℚ) (hm : 0 ≤ m) (h0 : 0 ≤ tau) (h1 : tau ≤ 1) :
    ∃ q : ℚ, guidanceWeight m tau = .fin q ∧ 0 ≤ q ∧ q ≤ m := by
  refine ⟨_, guidanceWeight_spec m tau hm, ?_, ?_⟩
  · split_ifs with ht1 ht0
    · exact le_refl 0
    · exact hm
    · have htau : 0 < tau := lt_of_le_of_ne h0 (Ne.symm ht0)
      have hlt : 0 < 1 - tau := by
        have : tau < 1 := lt_of_le_of_ne h1 ht1
        linarith
      refine le_min ?_ hm
      have hterm1 : 0 ≤ ((1 - tau) ^ 2 + tau ^ 2) / (1 - tau) ^ 2 :=
        div_nonneg (by positivity) (by positivity)
      have hterm2 : 0 ≤ (1 - tau) / tau := div_nonneg (le_of_lt hlt) (le_of_lt htau)
      exact mul_nonneg hterm1 hterm2
  · split_ifs with ht1 ht0
    · exact hm
    · exact le_refl m
    · exact min_le_right _ _

/-- Witness for C3 at `m = 3`, `tau = 1/4`. -/
theorem c3_guidance_weight_bounds_witness :
    ((0 : ℚ) ≤ 3 ∧ (0 : ℚ) ≤ 1/4 ∧ (1/4 : ℚ) ≤ 1) ∧
    ∃ q : ℚ, guidanceWeight 3 (1/4) = .fin q ∧ 0 ≤ q ∧ q ≤ 3 :=
  ⟨⟨by norm_num, by norm_num, by norm_num⟩,
    c3_guidance_weight_bounds 3 (1/4) (by norm_num) (by norm_num) (by norm_num)⟩

/-- Claim C4: with `prev_chunk_left_over` absent, `denoise_step` returns
exactly the base denoiser's output `f x`, for every input, time and base
denoiser — no guidance correction, no reshaping. -/
theorem c4_denoise_noop (cfg : RTCCfg) (em1 : ℚ → ℚ) (T A : ℕ) (x : Tensor)
    (d : ℕ) (time : ℚ) (f : Tensor → Tensor) (eh : Option ℕ) :
    denoise_step cfg em1 T A x none d time f eh = f x := rfl

/-- Claim C10: with a full-shape prefix present, the autograd correction is
exactly the weighted error (the Jacobian of `x1 = x - time * v` with respect
to `x` is the identity since `v` entered the graph as a constant), so the
returned guided velocity is
`v - g * ((p - (x - time * v)) * w)` pointwise, for every `x`, `p`, `time`
and base denoiser `f`. -/
theorem c10_guided_velocity (cfg : RTCCfg) (em1 : ℚ → ℚ) (T A : ℕ) (x p : Tensor)
    (d : ℕ) (time : ℚ) (f : Tensor → Tensor) (eh : Option ℕ) :
    denoise_step cfg em1 T A x (some (p, T, A)) d time f eh =
      fun t a => f x t a -
        guidanceWeightQ cfg.max_guidance_weight (1 - time) *
          ((p t a - (x t a - time * f x t a)) *
            (get_prefix_weights em1 cfg.prefix_attention_schedule d
              (min (eh.getD cfg.execution_horizon) T) T).getD t 0) := by
  have hclamp : (if T < eh.getD cfg.execution_horizon then T
      else eh.getD cfg.execution_horizon) = min (eh.getD cfg.execution_horizon) T := by
    rcases Nat.lt_or_ge T (eh.getD cfg.execution_horizon) with h | h
    · rw [if_pos h, min_eq_right (Nat.le_of_lt h)]
    · rw [if_neg (Nat.not_lt.mpr h), min_eq_left h]
  funext t a
  simp only [denoise_step, lt_irrefl, or_self, if_false, hclamp, vjp_identity_graph,
    TExpr.eval, Pi.sub_apply, Pi.smul_apply, smul_eq_mul]

/-- Claim C5, counterexample: at `start = 0`, `end = 5`, `total = 3`
(so `end > total`) the LINEAR schedule produces `[3/4, 1/2, 1/4]`, the
interior of `linspace(1, 0, total - start + 2)`, not the vector described by
the claim, whose ramp `linspace(1, 0, end - start + 2)` does not even fit in
length `total`. -/
theorem c5_linear_weights_counterexample :
    get_prefix_weights (fun _ => 0) .linear 0 5 3 ≠ linearWeightsSpec 0 5 3 ∧
    get_prefix_weights (fun _ => 0) .linear 0 5 3 = [3/4, 1/2, 1/4] := by
  have h1 : get_prefix_weights (fun _ => 0) .linear 0 5 3 = [3/4, 1/2, 1/4] := by
    simp [get_prefix_weights, linweights, linspace, add_trailing_zeros, add_leading_ones,
      List.range_succ]
    norm_num
  have h2 : linearWeightsSpec 0 5 3 = [5/6, 2/3, 1/2, 1/3, 1/6] := by
    simp [linearWeightsSpec, linspace, List.range_succ]
    norm_num
  refine ⟨?_, h1⟩
  rw [h1, h2]
  intro h
  simp only [List.cons.injEq] at h
  norm_num at h

/-- Claim C5, amended: provided `end ≤ total`, `get_prefix_weights` under
LINEAR (with `start` first replaced by `min(start, end)`) equals ones on
`[0, start)`, the interior of `linspace(1, 0, end - start + 2)` on
`[start, end)`, and zeros on `[end, total)`. -/
theorem c5_linear_weights (em1 : ℚ → ℚ) (start stop total : ℕ) (h : stop ≤ total) :
    get_prefix_weights em1 .linear start stop total =
      linearWeightsSpec (min start stop) stop total := by
  have h2 : min start stop ≤ stop := min_le_right _ _
  show add_leading_ones (add_trailing_zeros (linweights (min start stop) stop total) total stop)
      (min start stop) total = _
  rw [linweights_eq _ _ _ h h2, add_trailing_zeros_eq, add_leading_ones_eq]
  have hmin : min (min start stop) total = min start stop := by omega
  rw [hmin, linearWeightsSpec, List.append_assoc]

/-- Witness for C5 at the claim's own example `weights(2, 6, 8, LINEAR)`. -/
theorem c5_linear_weights_witness :
    (6 : ℕ) ≤ 8 ∧
    get_prefix_weights (fun _ => 0) .linear 2 6 8 = linearWeightsSpec (min 2 6) 6 8 :=
  ⟨by omega, c5_linear_weights (fun _ => 0) 2 6 8 (by omega)⟩

/-- Claim C6: after the builder replaces `start` by `min(start, end)`, the
ZEROS weights sum to `min(start, total)` and the ONES weights sum to
`min(end, total)`; and `weights(3, 7, 10, ZEROS)` is
`[1,1,1,0,0,0,0,0,0,0]`. -/
theorem c6_zeros_ones_sums (em1 : ℚ → ℚ) (start stop total : ℕ) :
    (get_prefix_weights em1 .zeros start stop total).sum = ((min (min start stop) total : ℕ) : ℚ) ∧
    (get_prefix_weights em1 .ones start stop total).sum = ((min stop total : ℕ) : ℚ) ∧
    get_prefix_weights (fun _ => 0) .zeros 3 7 10 = [1, 1, 1, 0, 0, 0, 0, 0, 0, 0] := by
  refine ⟨?_, ?_, ?_⟩
  · exact sum_indicator (min start stop) total
  · exact sum_indicator stop total
  · simp [get_prefix_weights, List.range_succ]

/-- Claim C7, counterexample: two `must_go` observations with the same
timestep 0, each followed by a GetActions poll, make the server run
inference twice for timestep 0 within one fresh session — `must_go`
bypasses the predicted-timestep check, refuting P9 as stated. -/
theorem c7_dedup_counterexample :
    runSession (fun _ _ => false) initServerState
      [.send ⟨0, true, 0⟩, .poll, .send ⟨0, true, 0⟩, .poll] = [0, 0] ∧
    ¬ ([0, 0] : List ℤ).Nodup := by
  constructor
  · rfl
  · decide

/-- Claim C7, amended: within a session of a freshly started server, if
every incoming observation carries `must_go = false`, then the timesteps
passed to inference are pairwise distinct: no timestep is predicted twice. -/
theorem c7_dedup_without_mustgo (similar : SObs → SObs → Bool) (evs : List SEvent)
    (h : noMustGo evs = true) :
    (runSession similar initServerState evs).Nodup :=
  (runSession_nodup_aux similar evs initServerState h
    ⟨fun o ho => by simp [initServerState] at ho, fun _ => rfl⟩).1

/-- Witness for C7 on a small concrete event sequence. -/
theorem c7_dedup_without_mustgo_witness :
    noMustGo [SEvent.send ⟨0, false, 0⟩, SEvent.poll] = true ∧
    (runSession (fun _ _ => false) initServerState
      [SEvent.send ⟨0, false, 0⟩, SEvent.poll]).Nodup :=
  ⟨rfl, c7_dedup_without_mustgo (fun _ _ => false) _ rfl⟩

/-- Claim C8, counterexample: after one observation has been ACCEPTED (but
not yet processed by inference), a second, similar observation is still
accepted by the code — because the code tests `last_processed_obs is None`,
not whether any observation was ever accepted — while the claim's condition
(no prior observation ever accepted; not similar to the last accepted one)
rejects it. -/
theorem c8_acceptance_counterexample :
    (enqueue_observation (fun _ _ => true)
      ((enqueue_observation (fun _ _ => true) initServerState ⟨0, false, 0⟩).1)
      ⟨1, false, 1⟩).2 = true ∧
    acceptSpec (fun _ _ => true) [] (some ⟨0, false, 0⟩) ⟨1, false, 1⟩ = false := by
  constructor
  · rfl
  · rfl

/-- Claim C8, amended: an observation is accepted into the inbound queue iff
`must_go` is true, or no observation has ever been PROCESSED by inference
(`last_processed_obs is None`), or its timestep is not among the predicted
ones and it is not similar to the last PROCESSED observation; a rejected
observation leaves the state unchanged, an accepted one replaces the
capacity-1 queue content. -/
theorem c8_acceptance_condition (similar : SObs → SObs → Bool) (s : ServerState) (o : SObs) :
    ((enqueue_observation similar s o).2 = true ↔
      (o.mustGo = true ∨ s.lastProcessed = none ∨
        (o.timestep ∉ s.predicted ∧
          ∀ prev, s.lastProcessed = some prev → similar o prev = false))) ∧
    ((enqueue_observation similar s o).2 = false → (enqueue_observation similar s o).1 = s) ∧
    ((enqueue_observation similar s o).2 = true →
      (enqueue_observation similar s o).1 = { s with obsQueue := some o }) := by
  unfold enqueue_observation obs_sanity_checks
  cases hl : s.lastProcessed with
  | none => cases hmg : o.mustGo <;> simp [hl, hmg]
  | some prev =>
      cases hmg : o.mustGo
      · by_cases hmem : o.timestep ∈ s.predicted
        · simp [hl, hmg, hmem]
        · cases hsim : similar o prev <;> simp [hl, hmg, hmem, hsim]
      · simp [hl, hmg]

/-- Witness for C8 at a concrete state and observation. -/
theorem c8_acceptance_condition_witness :
    (((enqueue_observation (fun _ _ => false) initServerState ⟨0, false, 0⟩).2 = true ↔
      ((⟨0, false, 0⟩ : SObs).mustGo = true ∨ initServerState.lastProcessed = none ∨
        ((⟨0, false, 0⟩ : SObs).timestep ∉ initServerState.predicted ∧
          ∀ prev, initServerState.lastProcessed = some prev →
            (fun _ _ => false : SObs → SObs → Bool) ⟨0, false, 0⟩ prev = false))) ∧
    ((enqueue_observation (fun _ _ => false) initServerState ⟨0, false, 0⟩).2 = false →
      (enqueue_observation (fun _ _ => false) initServerState ⟨0, false, 0⟩).1 =
        initServerState) ∧
    ((enqueue_observation (fun _ _ => false) initServerState ⟨0, false, 0⟩).2 = true →
      (enqueue_observation (fun _ _ => false) initServerState ⟨0, false, 0⟩).1 =
        { initServerState with obsQueue := some ⟨0, false, 0⟩ })) :=
  c8_acceptance_condition (fun _ _ => false) initServerState ⟨0, false, 0⟩

/-- Claim C9: `_time_action_chunk` stamps the i-th action of the chunk with
timestamp `t_0 + i * (1/fps)` and timestep `i_0 + i` (the config's
`environment_dt` is modelled from the spec as `1/fps`). -/
theorem c9_time_action_chunk {α : Type} (fps t_0 : ℚ) (action_chunk : List α) (i_0 : ℤ)
    (i : ℕ) (a : α) (h : action_chunk[i]? = some a) :
    (time_action_chunk (environment_dt fps) t_0 action_chunk i_0)[i]? =
      some ⟨t_0 + i * environment_dt fps, i_0 + i, a⟩ := by
  simp [time_action_chunk, List.getElem?_map, List.getElem?_enum, h]

/-- Witness for C9 at the claim's own example: `i_0 = 10`, ten actions,
`t_0 = 1/10`, `dt = 1/50`; the last action gets timestep 19 and timestamp
`1/10 + 9/50 = 0.28`. -/
theorem c9_time_action_chunk_witness :
    (List.replicate 10 (0 : ℕ))[9]? = some 0 ∧
    (time_action_chunk (environment_dt 50) (1/10) (List.replicate 10 (0 : ℕ)) 10)[9]? =
      some ⟨1/10 + (9 : ℕ) * environment_dt 50, 10 + (9 : ℕ), 0⟩ :=
  ⟨rfl, c9_time_action_chunk 50 (1/10) (List.replicate 10 (0 : ℕ)) 10 9 0 rfl⟩
